import Mathlib

/-!
# Codeforces-Companion test-execution engine, shallow embedding

This file embeds the test-execution and verdict engine of the extension
(`TestCaseHandler`: `runTestCases`, `runSingleTest`, `compareOutputs`,
`showTestResults`, and the interfaces `TestCase`, `ProblemData`,
`TestResult`) and proves the specified properties of the verdict
classification, the output normalizer, and the suite orchestration.

Text is modelled as `String` (with the normalizer working on the
underlying `List Char`).  The behaviour of the external child process for
the i-th test case is modelled by an oracle `runs : Nat → Except String
RunOutcome`: `.error msg` is an exception thrown while orchestrating the
case (caught by the `try`/`catch` in `runTestCases`), `.ok o` is the raw
outcome the event handlers of `runSingleTest` observe (which terminal
event fired, the stdout/stderr captured when it fired, and the measured
wall-clock time).
-/

/-- The JavaScript whitespace class used by `String.prototype.trim` /
`trimEnd`: tab, LF, VT, FF, CR, space, NBSP, and the Unicode space
separators plus LS, PS and the BOM. -/
def isJsWs (c : Char) : Bool :=
  c == '\t' || c == '\n' || c == '\x0b' || c == '\x0c' || c == '\r' || c == ' ' ||
  c == ' ' || c == ' ' || (' ' ≤ c && c ≤ ' ') ||
  c == ' ' || c == ' ' || c == ' ' || c == ' ' ||
  c == '　' || c == '﻿'

/-- Prepend a character to the first piece of a split (helper for
`splitNl`). -/
def consHead (c : Char) : List (List Char) → List (List Char)
  | [] => [[c]]
  | r :: rs => (c :: r) :: rs

/-- JavaScript `output.split('\n')`: the list of pieces between the `'\n'`
separators; always non-empty, `""` splits to `[""]`. -/
def splitNl : List Char → List (List Char)
  | [] => [[]]
  | c :: cs => if c = '\n' then [] :: splitNl cs else consHead c (splitNl cs)

/-- JavaScript `lines.join('\n')`: interleave a single `'\n'` between the
pieces. -/
def joinNl : List (List Char) → List Char
  | [] => []
  | [l] => l
  | l :: ls => l ++ '\n' :: joinNl ls

/-- JavaScript `line.trimEnd()`: remove the trailing run of whitespace. -/
def jsTrimEnd (s : List Char) : List Char := s.rdropWhile isJsWs

/-- JavaScript `s.trim()`: remove the leading and the trailing run of
whitespace. -/
def jsTrim (s : List Char) : List Char := (jsTrimEnd s).dropWhile isJsWs

/-- The `normalizeOutput` lambda inside `compareOutputs`: split into
lines, remove trailing whitespace from each line, rejoin with `'\n'`,
then `trim` the whole text. -/
def normalizeOutputL (s : List Char) : List Char :=
  jsTrim (joinNl ((splitNl s).map jsTrimEnd))

/-- `normalizeOutput` lifted to `String`. -/
def normalizeOutput (s : String) : String := ⟨normalizeOutputL s.data⟩

/-- `compareOutputs(actual, expected)`: strict equality of the two
normalized texts. -/
def compareOutputs (actual expected : String) : Bool :=
  normalizeOutput actual == normalizeOutput expected

/-- `TestCase` from `Interfaces.ts`. -/
structure TestCase where
  input : String
  output : String
  explanation : Option String := none
  deriving DecidableEq

/-- Which terminal event of the child process fired first in
`runSingleTest`: the 5000 ms timer (`timedOut`), the `'close'` event with
`code === null` (`killed`), or the `'close'` event with an exit code. -/
inductive ExitStatus where
  | timedOut
  | killed
  | exitedWithCode (code : Int)
  deriving DecidableEq

/-- The raw result of one child-process execution: captured stdout and
stderr at the moment the terminal event fired, the terminal event, and
the measured wall-clock time (`Date.now() - startTime`). -/
structure RunOutcome where
  stdout : String
  stderr : String
  exitStatus : ExitStatus
  wallClockMillis : Nat
  deriving DecidableEq

/-- `TestResult` from `Interfaces.ts`. -/
structure TestResult where
  testNumber : Nat
  passed : Bool
  input : String
  expectedOutput : String
  actualOutput : String
  error : Option String
  executionTime : Nat
  deriving DecidableEq

/-- The two counts `showTestResults` derives from the result list
(`passedTests`/`totalTests`). -/
structure Report where
  passed : Nat
  total : Nat
  deriving DecidableEq

/-- `ProblemData` from `Interfaces.ts`.  Note `timeLimit` is a display
string; the engine never reads it. -/
structure ProblemData where
  title : String
  timeLimit : String
  memoryLimit : String
  description : String
  inputFormat : String
  outputFormat : String
  sampleTests : List TestCase
  source : String
  difficulty : Option String := none

/-- What `runSingleTest` sets up before any event fires (lines 91-124 of
the handler): the data written to the child's stdin, whether stdin was
closed afterwards, and the timer deadline passed to `setTimeout`. -/
structure SpawnConfig where
  stdinData : String
  stdinEnded : Bool
  timeoutMs : Nat
  deriving DecidableEq

/-- The spawn set-up performed by `runSingleTest` for a test case:
`process.stdin.write(testCase.input + '\n'); process.stdin.end();` and
`setTimeout(..., 5000)`. -/
def spawnSetup (tc : TestCase) : SpawnConfig :=
  { stdinData := tc.input ++ "\n", stdinEnded := true, timeoutMs := 5000 }

/-- One spawn set-up per iteration of the `runTestCases` loop. -/
def spawnsOf (testCases : List TestCase) : List SpawnConfig :=
  testCases.map spawnSetup

/-- What the `setTimeout` callback of `runSingleTest` does when it fires:
`process.kill()` and resolve with a failed result carrying the stdout
captured so far and the error `'Time Limit Exceeded'`. -/
structure TimerFire where
  killedProcess : Bool
  result : TestResult

/-- The `setTimeout` callback of `runSingleTest` (it kills the process
and resolves), given the stdout captured so far and the elapsed time. -/
def timeoutHandler (tc : TestCase) (testNumber : Nat) (stdoutSoFar : String)
    (elapsed : Nat) : TimerFire :=
  { killedProcess := true
    result := { testNumber := testNumber, passed := false, input := tc.input,
                expectedOutput := tc.output, actualOutput := stdoutSoFar,
                error := some "Time Limit Exceeded", executionTime := elapsed } }

/-- `runSingleTest`, as a function of the raw outcome: the unique
`resolve` branch that fires (`setTimeout` callback, or the `'close'`
handler with `code === null`, nonzero `code`, or `code === 0`). -/
def runSingleTest (tc : TestCase) (testNumber : Nat) (o : RunOutcome) : TestResult :=
  match o.exitStatus with
  | .timedOut => (timeoutHandler tc testNumber o.stdout o.wallClockMillis).result
  | .killed =>
      { testNumber := testNumber, passed := false, input := tc.input,
        expectedOutput := tc.output, actualOutput := o.stdout,
        error := some ("Process terminated unexpectedly. Program may be waiting for input or stuck in infinite loop.\nStderr: " ++ o.stderr),
        executionTime := o.wallClockMillis }
  | .exitedWithCode code =>
      if code ≠ 0 then
        { testNumber := testNumber, passed := false, input := tc.input,
          expectedOutput := tc.output, actualOutput := o.stdout,
          error := some ("Runtime Error (Exit code: " ++ toString code ++ ")\n" ++ o.stderr),
          executionTime := o.wallClockMillis }
      else
        let passed := compareOutputs o.stdout tc.output
        { testNumber := testNumber, passed := passed, input := tc.input,
          expectedOutput := tc.output, actualOutput := o.stdout,
          error := if passed then none else some "Wrong Answer",
          executionTime := o.wallClockMillis }

/-- One iteration of the `runTestCases` loop at 0-based index `i`: `await
runSingleTest(...)` inside `try`, with the `catch` branch building an
internal-error result from the exception message. -/
def runCase (runs : Nat → Except String RunOutcome) (i : Nat) (tc : TestCase) : TestResult :=
  match runs i with
  | .ok o => runSingleTest tc (i + 1) o
  | .error msg =>
      { testNumber := i + 1, passed := false, input := tc.input,
        expectedOutput := tc.output, actualOutput := "",
        error := some msg, executionTime := 0 }

/-- The `runTestCases` loop started at index `i`. -/
def runTestCasesFrom (runs : Nat → Except String RunOutcome) :
    Nat → List TestCase → List TestResult
  | _, [] => []
  | i, tc :: rest => runCase runs i tc :: runTestCasesFrom runs (i + 1) rest

/-- `runTestCases(executablePath, testCases)`: one result per test case,
in order, starting at index 0. -/
def runTestCases (runs : Nat → Except String RunOutcome)
    (testCases : List TestCase) : List TestResult :=
  runTestCasesFrom runs 0 testCases

/-- The counts computed by `showTestResults`:
`passedTests = results.filter(r => r.passed).length`,
`totalTests = results.length`. -/
def showTestResults (results : List TestResult) : Report :=
  { passed := (results.filter fun r => r.passed).length, total := results.length }

/-- The spec's Verdict enumeration (§3). -/
inductive Verdict where
  | accepted
  | wrongAnswer
  | runtimeError (code : Int)
  | timeLimitExceeded
  | internalError (detail : String)
  deriving DecidableEq

/-- Modelled from the spec: §4.3 Verdict Classifier, the ordered decision
rules with first match winning (TimedOut, then Killed, then nonzero exit
code, then normalized comparison). -/
def classifySpec (o : RunOutcome) (expected : String) : Verdict :=
  match o.exitStatus with
  | .timedOut => .timeLimitExceeded
  | .killed => .internalError "terminated unexpectedly"
  | .exitedWithCode n =>
      if n ≠ 0 then .runtimeError n
      else if normalizeOutput o.stdout = normalizeOutput expected then .accepted
      else .wrongAnswer

/-- The error string the source attaches to a result of each verdict
class. -/
def errMsgOf (v : Verdict) (o : RunOutcome) : Option String :=
  match v with
  | .accepted => none
  | .wrongAnswer => some "Wrong Answer"
  | .timeLimitExceeded => some "Time Limit Exceeded"
  | .runtimeError n => some ("Runtime Error (Exit code: " ++ toString n ++ ")\n" ++ o.stderr)
  | .internalError _ => some ("Process terminated unexpectedly. Program may be waiting for input or stuck in infinite loop.\nStderr: " ++ o.stderr)

/-- The verdict of the i-th case under the oracle: the classifier on the
raw outcome, or `InternalError` on a caught exception. -/
def caseVerdict (runs : Nat → Except String RunOutcome) (i : Nat) (tc : TestCase) : Verdict :=
  match runs i with
  | .ok o => classifySpec o tc.output
  | .error msg => .internalError msg

/-- The verdicts of all cases from index `i` on. -/
def verdictsFrom (runs : Nat → Except String RunOutcome) :
    Nat → List TestCase → List Verdict
  | _, [] => []
  | i, tc :: rest => caseVerdict runs i tc :: verdictsFrom runs (i + 1) rest

/-- Apply a function to the first piece of a line list, keeping the
rest. -/
def mapHead (f : List Char → List Char) : List (List Char) → List (List Char)
  | [] => []
  | l :: ls => f l :: ls

/-! ## Structure of the normalizer -/

theorem consHead_ne_nil (c : Char) (ls : List (List Char)) : consHead c ls ≠ [] := by
  cases ls <;> simp [consHead]

theorem splitNl_ne_nil (s : List Char) : splitNl s ≠ [] := by
  induction s with
  | nil => simp [splitNl]
  | cons c cs ih =>
    rw [splitNl]
    split
    · simp
    · exact consHead_ne_nil c _

theorem nl_not_mem_of_mem_splitNl {s l : List Char} (hl : l ∈ splitNl s) : '\n' ∉ l := by
  induction s generalizing l with
  | nil =>
    simp only [splitNl, List.mem_singleton] at hl
    subst hl; simp
  | cons c cs ih =>
    rw [splitNl] at hl
    by_cases hc : c = '\n'
    · rw [if_pos hc, List.mem_cons] at hl
      rcases hl with h | h
      · subst h; simp
      · exact ih h
    · rw [if_neg hc] at hl
      cases hsp : splitNl cs with
      | nil => exact absurd hsp (splitNl_ne_nil cs)
      | cons r rs =>
        rw [hsp, consHead, List.mem_cons] at hl
        rcases hl with h | h
        · subst h
          intro hmem
          rcases List.mem_cons.mp hmem with h1 | h1
          · exact hc h1.symm
          · exact ih (hsp ▸ List.mem_cons_self r rs) h1
        · exact ih (hsp ▸ List.mem_cons_of_mem r h)

theorem splitNl_append_nl {l : List Char} (hl : '\n' ∉ l) (t : List Char) :
    splitNl (l ++ '\n' :: t) = l :: splitNl t := by
  induction l with
  | nil => simp [splitNl]
  | cons c cs ih =>
    have hc : c ≠ '\n' := fun h => hl (h ▸ List.mem_cons_self c cs)
    rw [List.cons_append, splitNl, if_neg hc, ih fun h => hl (List.mem_cons_of_mem c h)]
    rfl

theorem splitNl_eq_single {l : List Char} (hl : '\n' ∉ l) : splitNl l = [l] := by
  induction l with
  | nil => rfl
  | cons c cs ih =>
    have hc : c ≠ '\n' := fun h => hl (h ▸ List.mem_cons_self c cs)
    rw [splitNl, if_neg hc, ih fun h => hl (List.mem_cons_of_mem c h)]
    rfl

theorem joinNl_cons_of_ne_nil (l : List Char) {ls : List (List Char)} (h : ls ≠ []) :
    joinNl (l :: ls) = l ++ '\n' :: joinNl ls := by
  cases ls with
  | nil => exact absurd rfl h
  | cons m ms => rfl

theorem splitNl_joinNl {ls : List (List Char)} (h : ls ≠ [])
    (hnl : ∀ l ∈ ls, '\n' ∉ l) : splitNl (joinNl ls) = ls := by
  induction ls with
  | nil => exact absurd rfl h
  | cons l ms ih =>
    cases ms with
    | nil => exact splitNl_eq_single (hnl l (List.mem_cons_self l []))
    | cons m ms' =>
      rw [joinNl_cons_of_ne_nil l (by simp),
        splitNl_append_nl (hnl l (List.mem_cons_self l _)),
        ih (by simp) fun x hx => hnl x (List.mem_cons_of_mem l hx)]

theorem joinNl_concat {ls : List (List Char)} (h : ls ≠ []) (m : List Char) :
    joinNl (ls ++ [m]) = joinNl ls ++ '\n' :: m := by
  induction ls with
  | nil => exact absurd rfl h
  | cons l ms ih =>
    cases ms with
    | nil => rfl
    | cons m2 ms' =>
      rw [List.cons_append, joinNl_cons_of_ne_nil l (by simp),
        joinNl_cons_of_ne_nil l (by simp), ih (by simp)]
      simp

theorem reverse_joinNl (ls : List (List Char)) :
    (joinNl ls).reverse = joinNl (ls.reverse.map List.reverse) := by
  induction ls with
  | nil => rfl
  | cons l ms ih =>
    cases ms with
    | nil => rfl
    | cons m ms' =>
      have h1 : List.map List.reverse (m :: ms').reverse ≠ [] := by simp
      calc (joinNl (l :: m :: ms')).reverse
          = (l ++ '\n' :: joinNl (m :: ms')).reverse := by
            rw [joinNl_cons_of_ne_nil l (by simp)]
        _ = joinNl (List.map List.reverse (m :: ms').reverse) ++ '\n' :: l.reverse := by
            rw [List.reverse_append, List.reverse_cons, ih]
            simp [List.append_assoc]
        _ = joinNl (List.map List.reverse (m :: ms').reverse ++ [l.reverse]) :=
            (joinNl_concat h1 l.reverse).symm
        _ = joinNl (List.map List.reverse (l :: m :: ms').reverse) := by
            simp

theorem isJsWs_nl : isJsWs '\n' = true := by decide

theorem jsTrimEnd_eq_reverse (l : List Char) :
    jsTrimEnd l = (l.reverse.dropWhile isJsWs).reverse := rfl

theorem dropWhile_cons_eq_self_iff {c : Char} {t : List Char} :
    List.dropWhile isJsWs (c :: t) = c :: t ↔ isJsWs c = false := by
  rw [List.dropWhile_cons]
  constructor
  · intro h
    by_contra hc
    rw [Bool.not_eq_false] at hc
    rw [if_pos hc] at h
    have hle := (List.dropWhile_sublist (l := t) isJsWs).length_le
    rw [h] at hle
    simp at hle
  · intro h
    rw [if_neg (by simp [h])]

theorem beginsOk_append_left {p s : List Char}
    (h : List.dropWhile isJsWs (p ++ s) = p ++ s) : List.dropWhile isJsWs p = p := by
  cases p with
  | nil => rfl
  | cons c t =>
    rw [List.cons_append] at h
    exact dropWhile_cons_eq_self_iff.mpr (dropWhile_cons_eq_self_iff.mp h)

theorem jsTrimEnd_eq_self_iff {l : List Char} :
    jsTrimEnd l = l ↔ List.dropWhile isJsWs l.reverse = l.reverse := by
  rw [jsTrimEnd_eq_reverse, List.reverse_eq_iff]

theorem jsTrimEnd_idem (l : List Char) : jsTrimEnd (jsTrimEnd l) = jsTrimEnd l :=
  List.rdropWhile_idempotent isJsWs l

theorem endsOk_dropWhile_front {l : List Char} (h : jsTrimEnd l = l) :
    jsTrimEnd (List.dropWhile isJsWs l) = List.dropWhile isJsWs l := by
  rw [jsTrimEnd_eq_self_iff] at h ⊢
  obtain ⟨t, ht⟩ := List.dropWhile_suffix (l := l) isJsWs
  have hrev : l.reverse = (List.dropWhile isJsWs l).reverse ++ t.reverse := by
    conv_lhs => rw [← ht]
    rw [List.reverse_append]
  rw [hrev] at h
  exact beginsOk_append_left h

theorem dropWhile_front_ne_nil {l : List Char} (he : jsTrimEnd l = l) (hne : l ≠ []) :
    List.dropWhile isJsWs l ≠ [] := by
  rw [jsTrimEnd_eq_self_iff] at he
  intro hnil
  rw [List.dropWhile_eq_nil_iff] at hnil
  cases hr : l.reverse with
  | nil => exact hne (by simpa using congrArg List.reverse hr)
  | cons c t =>
    rw [hr] at he
    have hc : isJsWs c = false := dropWhile_cons_eq_self_iff.mp he
    have hcl : c ∈ l := List.mem_reverse.mp (hr ▸ List.mem_cons_self c t)
    rw [hnil c hcl] at hc
    exact Bool.noConfusion hc

theorem jsTrim_idem (x : List Char) : jsTrim (jsTrim x) = jsTrim x := by
  have h1 : jsTrimEnd (jsTrim x) = jsTrim x :=
    endsOk_dropWhile_front (jsTrimEnd_idem x)
  rw [jsTrim, h1]
  exact List.dropWhile_idempotent _ _

theorem mem_of_mem_jsTrimEnd {c : Char} {l : List Char} (h : c ∈ jsTrimEnd l) : c ∈ l := by
  rw [jsTrimEnd_eq_reverse, List.mem_reverse] at h
  exact List.mem_reverse.mp ((List.dropWhile_sublist isJsWs).subset h)

theorem mem_of_mem_rdropWhile {α : Type _} {p : α → Bool} {x : α} {l : List α}
    (h : x ∈ List.rdropWhile p l) : x ∈ l := by
  have h' : x ∈ (l.reverse.dropWhile p).reverse := h
  rw [List.mem_reverse] at h'
  exact List.mem_reverse.mp ((List.dropWhile_sublist p).subset h')

theorem isEmpty_reverse {α : Type _} (l : List α) : l.reverse.isEmpty = l.isEmpty := by
  cases l with
  | nil => rfl
  | cons a t =>
    rw [List.isEmpty_cons, List.isEmpty_eq_false]
    simp

theorem dropWhile_joinNl_of_beginsOk {ls : List (List Char)}
    (h : ∀ l ∈ ls, List.dropWhile isJsWs l = l) :
    List.dropWhile isJsWs (joinNl ls) = joinNl (ls.dropWhile fun l => l.isEmpty) := by
  induction ls with
  | nil => rfl
  | cons l ms ih =>
    cases ms with
    | nil =>
      cases l with
      | nil => rfl
      | cons c t => exact h (c :: t) (List.mem_cons_self _ _)
    | cons m ms' =>
      have hrest : ∀ x ∈ m :: ms', List.dropWhile isJsWs x = x :=
        fun x hx => h x (List.mem_cons_of_mem _ hx)
      cases l with
      | nil =>
        rw [joinNl_cons_of_ne_nil [] (by simp), List.nil_append, List.dropWhile_cons,
          if_pos isJsWs_nl, ih hrest]
        rfl
      | cons c t =>
        have hb := h (c :: t) (List.mem_cons_self _ _)
        have hc : isJsWs c = false := dropWhile_cons_eq_self_iff.mp hb
        rw [joinNl_cons_of_ne_nil (c :: t) (by simp), List.cons_append, List.dropWhile_cons,
          if_neg (by simp [hc])]
        rfl

theorem dropWhile_joinNl_of_endsOk {ls : List (List Char)}
    (h : ∀ l ∈ ls, jsTrimEnd l = l) :
    List.dropWhile isJsWs (joinNl ls)
      = joinNl (mapHead (List.dropWhile isJsWs) (ls.dropWhile fun l => l.isEmpty)) := by
  induction ls with
  | nil => rfl
  | cons l ms ih =>
    cases ms with
    | nil =>
      cases l with
      | nil => rfl
      | cons c t => rfl
    | cons m ms' =>
      have hrest : ∀ x ∈ m :: ms', jsTrimEnd x = x :=
        fun x hx => h x (List.mem_cons_of_mem _ hx)
      cases l with
      | nil =>
        rw [joinNl_cons_of_ne_nil [] (by simp), List.nil_append, List.dropWhile_cons,
          if_pos isJsWs_nl, ih hrest]
        rfl
      | cons c t =>
        have hb := h (c :: t) (List.mem_cons_self _ _)
        have hne : List.dropWhile isJsWs (c :: t) ≠ [] :=
          dropWhile_front_ne_nil hb (by simp)
        rw [joinNl_cons_of_ne_nil (c :: t) (by simp), List.dropWhile_append,
          if_neg (by simpa [List.isEmpty_iff] using hne)]
        show List.dropWhile isJsWs (c :: t) ++ '\n' :: joinNl (m :: ms')
            = joinNl (List.dropWhile isJsWs (c :: t) :: m :: ms')
        rw [joinNl_cons_of_ne_nil (List.dropWhile isJsWs (c :: t)) (by simp)]

theorem jsTrimEnd_joinNl {ls : List (List Char)} (h : ∀ l ∈ ls, jsTrimEnd l = l) :
    jsTrimEnd (joinNl ls) = joinNl (List.rdropWhile (fun l => l.isEmpty) ls) := by
  have hbeg : ∀ m ∈ ls.reverse.map List.reverse, List.dropWhile isJsWs m = m := by
    intro m hm
    rw [List.mem_map] at hm
    obtain ⟨x, hx, rfl⟩ := hm
    exact jsTrimEnd_eq_self_iff.mp (h x (List.mem_reverse.mp hx))
  calc jsTrimEnd (joinNl ls)
      = ((joinNl ls).reverse.dropWhile isJsWs).reverse := jsTrimEnd_eq_reverse _
    _ = ((joinNl (ls.reverse.map List.reverse)).dropWhile isJsWs).reverse := by
        rw [reverse_joinNl]
    _ = (joinNl ((ls.reverse.map List.reverse).dropWhile fun l => l.isEmpty)).reverse := by
        rw [dropWhile_joinNl_of_beginsOk hbeg]
    _ = (joinNl ((ls.reverse.dropWhile fun l => l.isEmpty).map List.reverse)).reverse := by
        rw [List.dropWhile_map]
        have hp : ((fun l : List Char => l.isEmpty) ∘ List.reverse)
            = fun l : List Char => l.isEmpty := by
          funext l
          simp [isEmpty_reverse]
        rw [hp]
    _ = joinNl (((ls.reverse.dropWhile fun l => l.isEmpty).map List.reverse).reverse.map
          List.reverse) := by
        rw [reverse_joinNl]
    _ = joinNl ((ls.reverse.dropWhile fun l => l.isEmpty).reverse) := by
        congr 1
        simp
    _ = joinNl (List.rdropWhile (fun l => l.isEmpty) ls) := rfl

/-- What the normalizer does, line by line: split, strip each line's
trailing whitespace, drop the trailing run of (now empty) blank lines,
drop the leading run of blank lines, strip the leading whitespace of the
first remaining line, and rejoin. -/
theorem normalizeOutputL_lines (s : List Char) :
    normalizeOutputL s
      = joinNl (mapHead (List.dropWhile isJsWs)
          ((List.rdropWhile (fun l => l.isEmpty) ((splitNl s).map jsTrimEnd)).dropWhile
            fun l => l.isEmpty)) := by
  have hends : ∀ l ∈ (splitNl s).map jsTrimEnd, jsTrimEnd l = l := by
    intro l hl
    rw [List.mem_map] at hl
    obtain ⟨x, _, rfl⟩ := hl
    exact jsTrimEnd_idem x
  rw [normalizeOutputL, jsTrim, jsTrimEnd_joinNl hends]
  exact dropWhile_joinNl_of_endsOk fun l hl => hends l (mem_of_mem_rdropWhile hl)

theorem mem_of_mem_dropWhileFront {c : Char} {l : List Char}
    (h : c ∈ List.dropWhile isJsWs l) : c ∈ l :=
  (List.dropWhile_sublist isJsWs).subset h

theorem normalizeOutputL_idem (s : List Char) :
    normalizeOutputL (normalizeOutputL s) = normalizeOutputL s := by
  have hends1 : ∀ l ∈ (splitNl s).map jsTrimEnd, jsTrimEnd l = l := by
    intro l hl
    rw [List.mem_map] at hl
    obtain ⟨x, _, rfl⟩ := hl
    exact jsTrimEnd_idem x
  cases hd : ((List.rdropWhile (fun l => l.isEmpty) ((splitNl s).map jsTrimEnd)).dropWhile
      fun l => l.isEmpty) with
  | nil =>
    rw [normalizeOutputL_lines s, hd]
    rfl
  | cons hm tl =>
    have hmem : ∀ x ∈ hm :: tl, x ∈ (splitNl s).map jsTrimEnd := by
      intro x hx
      have hx' : x ∈ (List.rdropWhile (fun l => l.isEmpty)
          ((splitNl s).map jsTrimEnd)).dropWhile fun l => l.isEmpty := by
        rw [hd]; exact hx
      exact mem_of_mem_rdropWhile ((List.dropWhile_sublist _).subset hx')
    have hends3 : ∀ l ∈ mapHead (List.dropWhile isJsWs) (hm :: tl), jsTrimEnd l = l := by
      intro l hl
      have hl' : l ∈ List.dropWhile isJsWs hm :: tl := hl
      rcases List.mem_cons.mp hl' with h1 | h1
      · subst h1
        exact endsOk_dropWhile_front (hends1 hm (hmem hm (List.mem_cons_self _ _)))
      · exact hends1 l (hmem l (List.mem_cons_of_mem _ h1))
    have hbase : ∀ x ∈ (splitNl s).map jsTrimEnd, '\n' ∉ x := by
      intro x hx
      rw [List.mem_map] at hx
      obtain ⟨y, hy, rfl⟩ := hx
      intro hc
      exact nl_not_mem_of_mem_splitNl hy (mem_of_mem_jsTrimEnd hc)
    have hnl3 : ∀ l ∈ mapHead (List.dropWhile isJsWs) (hm :: tl), '\n' ∉ l := by
      intro l hl
      have hl' : l ∈ List.dropWhile isJsWs hm :: tl := hl
      rcases List.mem_cons.mp hl' with h1 | h1
      · subst h1
        intro hc
        exact hbase hm (hmem hm (List.mem_cons_self _ _)) (mem_of_mem_dropWhileFront hc)
      · exact hbase l (hmem l (List.mem_cons_of_mem _ h1))
    have hmapid : List.map jsTrimEnd (mapHead (List.dropWhile isJsWs) (hm :: tl))
        = mapHead (List.dropWhile isJsWs) (hm :: tl) :=
      (List.map_congr_left fun a ha => hends3 a ha).trans
        (List.map_id (mapHead (List.dropWhile isJsWs) (hm :: tl)))
    have hr : normalizeOutputL s = joinNl (mapHead (List.dropWhile isJsWs) (hm :: tl)) := by
      rw [normalizeOutputL_lines s, hd]
    conv_lhs => rw [hr]
    show jsTrim (joinNl ((splitNl (joinNl (mapHead (List.dropWhile isJsWs)
      (hm :: tl)))).map jsTrimEnd)) = normalizeOutputL s
    rw [splitNl_joinNl (by simp [mapHead]) hnl3, hmapid, ← hr]
    exact jsTrim_idem (joinNl ((splitNl s).map jsTrimEnd))

/-! ## The orchestration loop -/

theorem length_runTestCasesFrom (runs : Nat → Except String RunOutcome) (i : Nat)
    (tcs : List TestCase) : (runTestCasesFrom runs i tcs).length = tcs.length := by
  induction tcs generalizing i with
  | nil => rfl
  | cons tc rest ih => simp [runTestCasesFrom, ih]

theorem getElem?_runTestCasesFrom (runs : Nat → Except String RunOutcome) (i j : Nat)
    (tcs : List TestCase) :
    (runTestCasesFrom runs i tcs)[j]? = tcs[j]?.map (runCase runs (i + j)) := by
  induction tcs generalizing i j with
  | nil => simp [runTestCasesFrom]
  | cons tc rest ih =>
    cases j with
    | zero => simp [runTestCasesFrom]
    | succ j' =>
      show (runCase runs i tc :: runTestCasesFrom runs (i + 1) rest)[j' + 1]?
          = (tc :: rest)[j' + 1]?.map (runCase runs (i + (j' + 1)))
      rw [List.getElem?_cons_succ, List.getElem?_cons_succ, ih,
        show i + (j' + 1) = i + 1 + j' by omega]

theorem testNumber_runSingleTest (tc : TestCase) (n : Nat) (o : RunOutcome) :
    (runSingleTest tc n o).testNumber = n := by
  cases h : o.exitStatus with
  | timedOut => simp [runSingleTest, h, timeoutHandler]
  | killed => simp [runSingleTest, h]
  | exitedWithCode code => simp [runSingleTest, h, apply_ite]

theorem testNumber_runCase (runs : Nat → Except String RunOutcome) (i : Nat)
    (tc : TestCase) : (runCase runs i tc).testNumber = i + 1 := by
  rw [runCase]
  cases runs i with
  | error msg => rfl
  | ok o => exact testNumber_runSingleTest tc (i + 1) o

theorem runSingleTest_eq (tc : TestCase) (n : Nat) (o : RunOutcome) :
    (runSingleTest tc n o).passed = decide (classifySpec o tc.output = Verdict.accepted)
    ∧ (runSingleTest tc n o).error = errMsgOf (classifySpec o tc.output) o := by
  cases h : o.exitStatus with
  | timedOut =>
    constructor <;> simp [runSingleTest, classifySpec, errMsgOf, h, timeoutHandler]
  | killed =>
    constructor <;> simp [runSingleTest, classifySpec, errMsgOf, h]
  | exitedWithCode code =>
    by_cases hc : code = 0
    · subst hc
      by_cases heq : normalizeOutput o.stdout = normalizeOutput tc.output
      · constructor <;>
          simp [runSingleTest, classifySpec, errMsgOf, h, compareOutputs, heq]
      · constructor <;>
          simp [runSingleTest, classifySpec, errMsgOf, h, compareOutputs, heq]
    · constructor <;> simp [runSingleTest, classifySpec, errMsgOf, h, hc]

theorem passed_eq_decide_runCase (runs : Nat → Except String RunOutcome) (i : Nat)
    (tc : TestCase) :
    (runCase runs i tc).passed = decide (caseVerdict runs i tc = Verdict.accepted) := by
  rw [runCase, caseVerdict]
  cases runs i with
  | error msg => rfl
  | ok o => exact (runSingleTest_eq tc (i + 1) o).1

theorem passed_iff_error_none_runCase (runs : Nat → Except String RunOutcome) (i : Nat)
    (tc : TestCase) :
    (runCase runs i tc).passed = true ↔ (runCase runs i tc).error = none := by
  rw [runCase]
  cases runs i with
  | error msg => simp
  | ok o =>
    cases h : o.exitStatus with
    | timedOut => simp [runSingleTest, h, timeoutHandler]
    | killed => simp [runSingleTest, h]
    | exitedWithCode code =>
      by_cases hc : code = 0
      · subst hc
        cases hb : compareOutputs o.stdout tc.output with
        | true => simp [runSingleTest, h, hb]
        | false => simp [runSingleTest, h, hb]
      · simp [runSingleTest, h, hc]

theorem passed_count_runTestCasesFrom (runs : Nat → Except String RunOutcome) (i : Nat)
    (tcs : List TestCase) :
    ((runTestCasesFrom runs i tcs).filter fun r => r.passed).length
      = (verdictsFrom runs i tcs).countP fun v => decide (v = Verdict.accepted) := by
  induction tcs generalizing i with
  | nil => rfl
  | cons tc rest ih =>
    show ((runCase runs i tc :: runTestCasesFrom runs (i + 1) rest).filter
        fun r => r.passed).length
      = (caseVerdict runs i tc :: verdictsFrom runs (i + 1) rest).countP
          fun v => decide (v = Verdict.accepted)
    have hpd := passed_eq_decide_runCase runs i tc
    rw [List.filter_cons, List.countP_cons, ← hpd]
    cases hp : (runCase runs i tc).passed with
    | true => simp [ih]
    | false => simp [ih]

theorem mem_runTestCasesFrom {runs : Nat → Except String RunOutcome} {r : TestResult}
    {i : Nat} {tcs : List TestCase} (h : r ∈ runTestCasesFrom runs i tcs) :
    ∃ j tc, tcs[j]? = some tc ∧ r = runCase runs (i + j) tc := by
  induction tcs generalizing i with
  | nil => simp [runTestCasesFrom] at h
  | cons tc rest ih =>
    have h' : r ∈ runCase runs i tc :: runTestCasesFrom runs (i + 1) rest := h
    rcases List.mem_cons.mp h' with h1 | h1
    · exact ⟨0, tc, by simp, by simpa using h1⟩
    · obtain ⟨j, tc', hj, hr⟩ := ih h1
      refine ⟨j + 1, tc', by simpa using hj, ?_⟩
      rw [show i + (j + 1) = i + 1 + j by omega]
      exact hr

/-! ## Fixtures for the closed instances -/

/-- A concrete sample test case. -/
def sampleCase : TestCase := { input := "8", output := "YES" }

/-- An outcome where the timer fired after capturing the output so far. -/
def tleOutcome : RunOutcome :=
  { stdout := "YE", stderr := "", exitStatus := .timedOut, wallClockMillis := 5003 }

/-- An outcome where the process was terminated externally (`code === null`)
after printing the expected answer. -/
def killedOutcome : RunOutcome :=
  { stdout := "YES\n", stderr := "", exitStatus := .killed, wallClockMillis := 42 }

/-- An oracle that throws for every case (missing executable). -/
def failingOracle : Nat → Except String RunOutcome :=
  fun _ => .error "spawn ENOENT"

/-- An oracle where every case exits 0 and prints the right answer. -/
def okOracle : Nat → Except String RunOutcome :=
  fun _ => .ok { stdout := "YES\n", stderr := "", exitStatus := .exitedWithCode 0,
                 wallClockMillis := 12 }

/-- A concrete problem whose displayed time limit differs from 5000 ms. -/
def sampleProblem : ProblemData :=
  { title := "A", timeLimit := "2 seconds", memoryLimit := "256 megabytes",
    description := "", inputFormat := "", outputFormat := "",
    sampleTests := [sampleCase], source := "Codeforces" }

/-! ## The claims -/

/-- C1: for every run outcome and expected text the verdict is decided by
the spec's ordered rules with first match winning (`classifySpec` is
those rules verbatim): a result is marked passed exactly when the rules
give `Accepted`, and the error string the code attaches is exactly the
one of the verdict class the rules select — in particular a nonzero exit
yields the runtime-error message regardless of stdout, never the
wrong-answer message. -/
theorem verdict_follows_ordered_rules (tc : TestCase) (n : Nat) (o : RunOutcome) :
    (runSingleTest tc n o).passed = decide (classifySpec o tc.output = Verdict.accepted)
    ∧ (runSingleTest tc n o).error = errMsgOf (classifySpec o tc.output) o :=
  runSingleTest_eq tc n o

/-- C2: the suite runner returns exactly one result per test case, in
input order, with 1-based contiguous test numbers; the report's `total`
is the number of supplied cases and its `passed` counts the cases whose
verdict is `Accepted`. -/
theorem report_counts_and_ordering (runs : Nat → Except String RunOutcome)
    (tcs : List TestCase) :
    (runTestCases runs tcs).length = tcs.length
    ∧ (∀ j : Nat, (runTestCases runs tcs)[j]? = tcs[j]?.map (runCase runs j))
    ∧ (∀ j : Nat, ((runTestCases runs tcs)[j]?.map TestResult.testNumber)
        = tcs[j]?.map fun _ => j + 1)
    ∧ (showTestResults (runTestCases runs tcs)).total = tcs.length
    ∧ (showTestResults (runTestCases runs tcs)).passed
        = (verdictsFrom runs 0 tcs).countP fun v => decide (v = Verdict.accepted) := by
  refine ⟨length_runTestCasesFrom runs 0 tcs, ?_, ?_,
    length_runTestCasesFrom runs 0 tcs, passed_count_runTestCasesFrom runs 0 tcs⟩
  · intro j
    rw [runTestCases, getElem?_runTestCasesFrom, Nat.zero_add]
  · intro j
    cases hj : tcs[j]? with
    | none => rw [runTestCases, getElem?_runTestCasesFrom, hj]; rfl
    | some tc =>
      rw [runTestCases, getElem?_runTestCasesFrom, hj]
      simp [testNumber_runCase]

/-- C3: when the timer fires first, the handler kills the process and the
result is the timer handler's: verdict `TimeLimitExceeded` and the actual
output is exactly the stdout captured up to the moment the timer
fired. -/
theorem timer_fire_kills_and_reports_tle (tc : TestCase) (n : Nat) (o : RunOutcome)
    (h : o.exitStatus = ExitStatus.timedOut) :
    (timeoutHandler tc n o.stdout o.wallClockMillis).killedProcess = true
    ∧ runSingleTest tc n o = (timeoutHandler tc n o.stdout o.wallClockMillis).result
    ∧ (runSingleTest tc n o).error = some "Time Limit Exceeded"
    ∧ (runSingleTest tc n o).actualOutput = o.stdout
    ∧ classifySpec o tc.output = Verdict.timeLimitExceeded := by
  refine ⟨rfl, ?_, ?_, ?_, ?_⟩ <;> simp [runSingleTest, classifySpec, h, timeoutHandler]

/-- Witness for C3 at a concrete timed-out outcome. -/
theorem timer_fire_kills_and_reports_tle_witness :
    (timeoutHandler sampleCase 1 tleOutcome.stdout tleOutcome.wallClockMillis).killedProcess
        = true
    ∧ runSingleTest sampleCase 1 tleOutcome
        = (timeoutHandler sampleCase 1 tleOutcome.stdout tleOutcome.wallClockMillis).result
    ∧ (runSingleTest sampleCase 1 tleOutcome).error = some "Time Limit Exceeded"
    ∧ (runSingleTest sampleCase 1 tleOutcome).actualOutput = tleOutcome.stdout
    ∧ classifySpec tleOutcome sampleCase.output = Verdict.timeLimitExceeded :=
  timer_fire_kills_and_reports_tle sampleCase 1 tleOutcome rfl

/-- C4: an exception raised while running the j-th case is caught and
becomes an internal-error result for that case (empty actual output,
the exception message as error, zero time), and the suite still returns
one result for every supplied case. -/
theorem exception_becomes_internal_error_result (runs : Nat → Except String RunOutcome)
    (tcs : List TestCase) (j : Nat) (msg : String) (tc : TestCase)
    (h1 : runs j = Except.error msg) (h2 : tcs[j]? = some tc) :
    (runTestCases runs tcs).length = tcs.length
    ∧ (runTestCases runs tcs)[j]? = some
        { testNumber := j + 1, passed := false, input := tc.input,
          expectedOutput := tc.output, actualOutput := "", error := some msg,
          executionTime := 0 } := by
  refine ⟨length_runTestCasesFrom runs 0 tcs, ?_⟩
  rw [runTestCases, getElem?_runTestCasesFrom, h2]
  simp [runCase, h1]

/-- Witness for C4: a missing executable makes every spawn throw, the
single case still resolves to an internal-error result. -/
theorem exception_becomes_internal_error_result_witness :
    (runTestCases failingOracle [sampleCase]).length = [sampleCase].length
    ∧ (runTestCases failingOracle [sampleCase])[0]? = some
        { testNumber := 1, passed := false, input := sampleCase.input,
          expectedOutput := sampleCase.output, actualOutput := "",
          error := some "spawn ENOENT", executionTime := 0 } :=
  exception_becomes_internal_error_result failingOracle [sampleCase] 0 "spawn ENOENT"
    sampleCase rfl rfl

/-- C5 counterexample: the claim asserts the final whole-text strip
removes only leading and trailing blank lines, preserving leading
non-blank whitespace on the first line; but the source calls `trim()`,
so `" x"` normalizes to `"x"`, not to `" x"`. -/
theorem normalizeOutput_strips_leading_ws :
    normalizeOutput " x" = "x" ∧ normalizeOutput " x" ≠ " x" := by
  constructor
  · rfl
  · decide

/-- C5 (amended): the normalizer splits on newlines, strips each line's
trailing whitespace, rejoins with a single newline, then strips leading
and trailing blank lines AND the leading whitespace of the first
remaining line (the final `trim()` also eats it). -/
theorem normalizeOutput_lines_amended (s : List Char) :
    normalizeOutputL s
      = joinNl (mapHead (List.dropWhile isJsWs)
          ((List.rdropWhile (fun l => l.isEmpty) ((splitNl s).map jsTrimEnd)).dropWhile
            fun l => l.isEmpty)) :=
  normalizeOutputL_lines s

/-- C6: normalization is idempotent. -/
theorem normalizeOutput_idempotent (s : String) :
    normalizeOutput (normalizeOutput s) = normalizeOutput s :=
  congrArg String.mk (normalizeOutputL_idem s.data)

/-- C7: a timed-out or killed outcome is never marked passed and never
classifies as `Accepted`, regardless of the captured stdout. -/
theorem timedOut_or_killed_never_accepted (tc : TestCase) (n : Nat) (o : RunOutcome)
    (h : o.exitStatus = ExitStatus.timedOut ∨ o.exitStatus = ExitStatus.killed) :
    (runSingleTest tc n o).passed = false
    ∧ classifySpec o tc.output ≠ Verdict.accepted := by
  rcases h with h | h <;>
    exact ⟨by simp [runSingleTest, h, timeoutHandler], by simp [classifySpec, h]⟩

/-- Witness for C7: a killed process that had already printed the
expected answer is still not accepted. -/
theorem timedOut_or_killed_never_accepted_witness :
    (runSingleTest sampleCase 1 killedOutcome).passed = false
    ∧ classifySpec killedOutcome sampleCase.output ≠ Verdict.accepted :=
  timedOut_or_killed_never_accepted sampleCase 1 killedOutcome (Or.inr rfl)

/-- C8: the empty test-case sequence yields no results, a report with
zero passed and zero total, and no spawn set-up is created. -/
theorem empty_suite_report (runs : Nat → Except String RunOutcome) :
    runTestCases runs [] = []
    ∧ showTestResults (runTestCases runs []) = { passed := 0, total := 0 }
    ∧ spawnsOf [] = [] :=
  ⟨rfl, rfl, rfl⟩

/-- C9: every result the engine produces is marked passed exactly when
its error field is null; every failing result carries an error string. -/
theorem passed_iff_error_none (runs : Nat → Except String RunOutcome)
    (tcs : List TestCase) (r : TestResult) (h : r ∈ runTestCases runs tcs) :
    r.passed = true ↔ r.error = none := by
  obtain ⟨j, tc, _, rfl⟩ := mem_runTestCasesFrom h
  exact passed_iff_error_none_runCase runs (0 + j) tc

/-- Witness for C9 at a concrete accepted run. -/
theorem passed_iff_error_none_witness :
    (runCase okOracle 0 sampleCase).passed = true
      ↔ (runCase okOracle 0 sampleCase).error = none :=
  passed_iff_error_none okOracle [sampleCase] (runCase okOracle 0 sampleCase)
    (List.mem_cons_self _ _)

/-- C10: the per-case deadline is the constant 5000 ms for every test
case of every problem (the `timeLimit` field of `ProblemData` is never
read), and the child's stdin receives the case input followed by one
newline before being closed. -/
theorem spawn_constant_timeout_and_stdin (pd : ProblemData) (tc : TestCase)
    (h : tc ∈ pd.sampleTests) :
    (spawnSetup tc).timeoutMs = 5000
    ∧ (spawnSetup tc).stdinData = tc.input ++ "\n"
    ∧ (spawnSetup tc).stdinEnded = true :=
  ⟨rfl, rfl, rfl⟩

/-- Witness for C10 at a problem whose displayed time limit is 2
seconds. -/
theorem spawn_constant_timeout_and_stdin_witness :
    (spawnSetup sampleCase).timeoutMs = 5000
    ∧ (spawnSetup sampleCase).stdinData = sampleCase.input ++ "\n"
    ∧ (spawnSetup sampleCase).stdinEnded = true :=
  spawn_constant_timeout_and_stdin sampleProblem sampleCase (List.mem_cons_self _ _)
